import Mathlib

/-!
Verification of the registry subsystem of oazmon/ksonnet.

The development shallowly embeds the Go sources:
  * `pkg/registry/github.go`  (URI parser, content resolver, cache manager)
  * `pkg/util/github` client file (`CommitSHA1` default transport)

Machine strings are modelled as Lean `String` and the handful of Go
`strings` functions used by the source (`Split`, `Join`, `HasPrefix`,
`HasSuffix`, `TrimPrefix`, `TrimSpace`) are re-implemented below by
structural recursion over the character list, so that everything
evaluates inside the kernel.
-/

set_option autoImplicit false

/-! ## Go string primitives -/

/-- `listStartsWith p s` decides whether `p` is a prefix of the character list `s`
(Go `strings.HasPrefix` at the character level). -/
def listStartsWith : List Char → List Char → Bool
  | [], _ => true
  | _ :: _, [] => false
  | c :: cs, d :: ds => c == d && listStartsWith cs ds

/-- Go `strings.HasPrefix s p`. -/
def startsWithStr (s p : String) : Bool :=
  listStartsWith p.data s.data

/-- Go `strings.HasSuffix s p`. -/
def endsWithStr (s p : String) : Bool :=
  listStartsWith p.data.reverse s.data.reverse

/-- Go `strings.TrimPrefix s p`: drops `p` from the front of `s` when present,
otherwise returns `s` unchanged. -/
def trimPrefixStr (s p : String) : String :=
  if startsWithStr s p then ⟨s.data.drop p.data.length⟩ else s

def isSpaceChar (c : Char) : Bool :=
  c == ' ' || c == '\t' || c == '\n' || c == '\r'

/-- Go `strings.TrimSpace` (restricted to ASCII whitespace, which is all the
registry URIs can contain). -/
def goTrimSpace (s : String) : String :=
  ⟨((s.data.dropWhile isSpaceChar).reverse.dropWhile isSpaceChar).reverse⟩

/-- Worker for `splitOnChar`; `acc` holds the current segment reversed. -/
def splitOnCharAux (sep : Char) : List Char → List Char → List String
  | [], acc => [⟨acc.reverse⟩]
  | c :: cs, acc =>
    if c == sep then ⟨acc.reverse⟩ :: splitOnCharAux sep cs []
    else splitOnCharAux sep cs (c :: acc)

/-- Go `strings.Split s sep` for a single-character separator:
`splitOnChar '/' ""` is `[""]`, exactly as in Go. -/
def splitOnChar (sep : Char) (s : String) : List String :=
  splitOnCharAux sep s.data []

/-- Go `strings.Join xs "/"`. -/
def goJoin : List String → String
  | [] => ""
  | [s] => s
  | s :: rest => s ++ "/" ++ goJoin rest

/-- `takeUntil p cs` splits `cs` at the first character satisfying `p`
(the matching character stays at the head of the second component). -/
def takeUntil (p : Char → Bool) : List Char → List Char × List Char
  | [] => ([], [])
  | c :: cs =>
    if p c then ([], c :: cs)
    else
      let r := takeUntil p cs
      (c :: r.1, r.2)

/-! ## URL model (`net/url` restricted to the shapes the parser receives) -/

/-- The fields of `net/url.URL` that `parseGitHubURI` reads.  Fragments,
user-info, ports and percent-escapes are not modelled: the registry URI
grammar in the spec never produces them. -/
structure URL where
  scheme : String
  host : String
  path : String
  rawQuery : String
deriving DecidableEq

/-- `net/url.Parse` for inputs of the form `scheme://host[/path][?query]`.
All inputs reaching it in this development start with `http://` or
`https://` because `parseGitHubURI` prepends a scheme first.  The Go
function can fail on exotic inputs; on the modelled shapes it is total. -/
def urlParse (s : String) : URL :=
  let sr : String × List Char :=
    if startsWithStr s "http://" then ("http", s.data.drop 7)
    else if startsWithStr s "https://" then ("https", s.data.drop 8)
    else ("", s.data)
  let hr := takeUntil (fun c => c == '/' || c == '?') sr.2
  match hr.2 with
  | [] => ⟨sr.1, ⟨hr.1⟩, "", ""⟩
  | c :: cs =>
    if c == '?' then ⟨sr.1, ⟨hr.1⟩, "", ⟨cs⟩⟩
    else
      let pq := takeUntil (fun d => d == '?') (c :: cs)
      match pq.2 with
      | [] => ⟨sr.1, ⟨hr.1⟩, ⟨pq.1⟩, ""⟩
      | _ :: qs => ⟨sr.1, ⟨hr.1⟩, ⟨pq.1⟩, ⟨qs⟩⟩

/-- `net/url.ParseQuery`: split the raw query on `&`, skip empty segments,
and cut each segment at the first `=` (key without `=` gets value `""`). -/
def queryPairs (raw : String) : List (String × String) :=
  (splitOnChar '&' raw).filterMap fun seg =>
    if seg = "" then none
    else
      let kv := takeUntil (fun c => c == '=') seg.data
      match kv.2 with
      | [] => some (⟨kv.1⟩, "")
      | _ :: vs => some (⟨kv.1⟩, ⟨vs⟩)

/-- The distinct keys of a parsed query (`url.Values` is a map, so
`len(queries)` counts distinct keys). -/
def distinctKeys : List (String × String) → List String
  | [] => []
  | kv :: rest =>
    let ks := distinctKeys rest
    if kv.1 ∈ ks then ks else kv.1 :: ks

def numQueryKeys (ps : List (String × String)) : Nat :=
  (distinctKeys ps).length

/-- `queries[k]`: the values recorded under key `k`, in order. -/
def queryValues (ps : List (String × String)) (k : String) : List String :=
  (ps.filter fun kv => kv.1 == k).map fun kv => kv.2

/-! ## URI descriptor parser (`parseGitHubURI`, github.go lines 497-651) -/

def registryYAMLFile : String := "registry.yaml"

def defaultGitHubBranch : String := "master"

structure hubDescriptor where
  baseURL : Option String
  org : String
  repo : String
  refSpec : String
  regRepoPath : String
  regSpecRepoPath : String
deriving DecidableEq

inductive ParseErr where
  /-- "Registries using protocol 'github' must provide URIs beginning with 'github' ..." -/
  | badHostPrefix
  /-- "Enterprise GitHub URI must point at a repository's V3 API 'repos' endpoint" -/
  | noReposSegment
  /-- "Only 'ref' query strings allowed in enterprise registry URI" -/
  | badEnterpriseQuery
  /-- "No query strings allowed in registry URI" -/
  | queryNotAllowed
  /-- "GitHub URI must point at a repository" -/
  | notARepository
deriving DecidableEq

inductive ParseResult where
  | ok (hd : hubDescriptor)
  | err (e : ParseErr)
  /-- Line 558 of github.go evaluates `hd.baseURL.String()` inside a debug
  print.  On the public (non-enterprise) side `hd.baseURL` was just set to
  `nil` (line 555), so the call dereferences a nil pointer and the whole
  function panics instead of returning. -/
  | panicNilPointer
deriving DecidableEq

/-- First index of the literal segment `"repos"` (github.go lines 522-527). -/
def findReposIndex : List String → Option Nat
  | [] => none
  | c :: cs =>
    if c = "repos" then some 0
    else (findReposIndex cs).map (· + 1)

/-- The enterprise query switch, github.go lines 534-548: zero query keys
give the empty reference, exactly one key named `ref` with exactly one
value gives that value, anything else is an error (`none`). -/
def enterpriseQueryRef (raw : String) : Option String :=
  let qs := queryPairs raw
  let nk := numQueryKeys qs
  if nk = 0 then some ""
  else if nk = 1 then
    match queryValues qs "ref" with
    | [v] => some v
    | _ => none
  else none

/-- github.go lines 591-613: the enterprise tail of `parseGitHubURI`.
`components` is the full split path, `b` the index of the `repos` anchor.
With more than `b+4` components the registry paths are joined out of the
remaining components (a trailing empty component, i.e. a URI ending in
`/`, is replaced by the manifest filename); otherwise the URI points at
the repository root and the reference is overwritten with the default
branch.  Go mutates `components[len-1]` or appends; both are expressed
here with `dropLast ++ [registryYAMLFile]`. -/
def enterpriseTail (qRef : String) (baseURL : Option String) (org repo : String)
    (b : Nat) (components : List String) : ParseResult :=
  if components.length > b + 4 then
    if components.getLastD "" = "" then
      .ok { baseURL := baseURL, org := org, repo := repo, refSpec := qRef,
            regRepoPath := goJoin ((components.drop (b + 4)).dropLast),
            regSpecRepoPath := goJoin ((components.dropLast ++ [registryYAMLFile]).drop (b + 4)) }
    else
      .ok { baseURL := baseURL, org := org, repo := repo, refSpec := qRef,
            regRepoPath := goJoin (components.drop (b + 4)),
            regSpecRepoPath := goJoin ((components ++ [registryYAMLFile]).drop (b + 4)) }
  else
    .ok { baseURL := baseURL, org := org, repo := repo, refSpec := defaultGitHubBranch,
          regRepoPath := "", regSpecRepoPath := registryYAMLFile }

/-- github.go lines 508-613 (everything after URL parsing).  Go computes
`isEnterprise := !strings.HasSuffix(parsed.Host, "github.com")`; the two
branches are written here with the test un-negated.  On the public branch
the code sets `hd.baseURL = nil` and then line 558 dereferences it:
control never reaches the public path-shape parsing at lines 614-650,
which is therefore dead code and not part of the embedding. -/
def parseFromURL (p : URL) : ParseResult :=
  if endsWithStr p.host "github.com" then
    if numQueryKeys (queryPairs p.rawQuery) ≠ 0 then .err .queryNotAllowed
    else .panicNilPointer
  else
    match findReposIndex (splitOnChar '/' p.path) with
    | none => .err .noReposSegment
    | some b =>
      match enterpriseQueryRef p.rawQuery with
      | none => .err .badEnterpriseQuery
      | some qRef =>
        if (splitOnChar '/' p.path).length < b + 3 then .err .notARepository
        else
          enterpriseTail qRef
            (some (p.scheme ++ "://" ++ p.host ++ goJoin ((splitOnChar '/' p.path).take b) ++ "/"))
            ((splitOnChar '/' p.path).getD (b + 1) "")
            ((splitOnChar '/' p.path).getD (b + 2) "")
            b (splitOnChar '/' p.path)

/-- github.go lines 498-506: trim whitespace and require a `github.` /
`www.github.` host family, prepending `http://` when the scheme is
missing.  `none` is the dedicated "must provide URIs beginning with
'github'" error. -/
def normalizeURI (uri0 : String) : Option String :=
  let uri := goTrimSpace uri0
  if startsWithStr uri "http://github." || startsWithStr uri "https://github." ||
      startsWithStr uri "http://www.github." || startsWithStr uri "https://www.github." then
    some uri
  else if startsWithStr uri "github." || startsWithStr uri "www.github." then
    some ("http://" ++ uri)
  else none

/-- `parseGitHubURI` (github.go lines 497-651). -/
def parseGitHubURI (uri : String) : ParseResult :=
  match normalizeURI uri with
  | none => .err .badHostPrefix
  | some u => parseFromURL (urlParse u)

/-- String form of the normalized URI, used to state side conditions on the
path of an accepted URI. -/
def normalizedURI (uri : String) : String :=
  (normalizeURI uri).getD ""


/-! ## Contexts (`context` package, as used by the registry code)

`resolveLatestSHA` (github.go line 148) builds
`context.WithTimeout(context.Background(), 10*time.Second)`;
`fetchRemoteSpec` (line 262), `ResolveLibrarySpec` (line 299),
`ResolveLibrary` (line 372) and `resolveDir` (line 431) all build a bare
`context.Background()`. -/

inductive Ctx where
  | background
  | withTimeout (parent : Ctx) (seconds : Nat)
deriving DecidableEq

def Ctx.hasDeadline : Ctx → Bool
  | .background => false
  | .withTimeout _ _ => true

/-- Context built at github.go line 148 (`resolveLatestSHA`). -/
def resolveLatestSHACtx : Ctx := Ctx.withTimeout Ctx.background 10

/-- Context built at github.go line 262 (`fetchRemoteSpec`). -/
def fetchRemoteSpecCtx : Ctx := Ctx.background

/-- Context built at github.go line 431 (`resolveDir`, library tree traversal). -/
def resolveDirCtx : Ctx := Ctx.background

/-- Context built at github.go line 372 (`ResolveLibrary`, also used for the
library manifest fetch at line 399). -/
def resolveLibraryCtx : Ctx := Ctx.background

/-! ## Transport data model -/

/-- `github.Repo` from the util client file. -/
structure Repo where
  org : String
  repo : String
deriving DecidableEq

/-- `github.ContentSpec`. -/
structure ContentSpec where
  repo : Repo
  path : String
  refSpec : String
deriving DecidableEq

/-- `defaultGitHub.CommitSHA1` (util client file lines 134-143): an empty
refspec is replaced with the literal `"master"` before the upstream
`Repositories.GetCommitSHA1` call, abstracted here as `upstream`. -/
def CommitSHA1 (upstream : Ctx → Repo → String → Except String String)
    (ctx : Ctx) (repo : Repo) (refSpec : String) : Except String String :=
  let refSpec1 := if refSpec = "" then "master" else refSpec
  upstream ctx repo refSpec1

/-! ## Registry inventory (`registry.Spec`)

The `Spec` type itself lives in `pkg/registry/spec.go`, which is not part
of the sources; only the fields the cache manager touches are modelled.
Modelled from the spec: a registry inventory is a collection of library
descriptors, each carrying a version, plus a single `Version`
(resolvedRevision) field stamped by the cache manager. -/

structure Library where
  name : String
  version : String
deriving DecidableEq

structure Spec where
  version : String
  libraries : List Library
deriving DecidableEq

/-- `updateLibVersions` (github.go lines 160-168) on a non-nil spec:
every library's version is overwritten. -/
def updateLibVersions (spec : Spec) (version : String) : Spec :=
  { spec with libraries := spec.libraries.map fun l => { l with version := version } }

/-- `updateLibVersions` including the nil-receiver guard, and the Go
pattern of returning the same (possibly nil) pointer afterwards. -/
def updateLibVersionsOpt : Option Spec → String → Option Spec
  | none, _ => none
  | some s, v => some (updateLibVersions s v)

/-! ## Cache manager (`GitHub` methods) -/

/-- The `GitHub` registry object: its name and parsed descriptor.  The
embedding constructs it only in states where the descriptor is present
(as `NewGitHub` guarantees), so the nil-receiver / nil-descriptor backup
branches of the Go methods are not reachable and not modelled. -/
structure GH where
  name : String
  hd : hubDescriptor

def hubRepo (hd : hubDescriptor) : Repo := ⟨hd.org, hd.repo⟩

/-- Outcome kinds for a file fetch through `ghClient.Contents` when a file
is expected (`fetchRemoteSpec`): transport error, no file (nil file
pointer, e.g. the path is a directory), or a file whose `GetContent` call
either fails or yields text. -/
inductive FileFetchResult where
  | fetchErr
  | noFile
  | fileContent (text : Option String)
deriving DecidableEq

inductive FetchErr where
  /-- "unable to resolve commit for refspec" with no usable cache -/
  | resolveFailed
  /-- error propagated from the transport -/
  | transport
  /-- "Could not find valid registry with coordinates" -/
  | noValidRegistry
  /-- `file.GetContent()` failed -/
  | contentDecode
  /-- deserialization of the fetched registry spec failed -/
  | unmarshalFailed
  /-- serialization of the spec for the cache file failed -/
  | marshalFailed
  /-- `MkdirAll` failed -/
  | mkdirFailed
  /-- `afero.WriteFile` failed -/
  | writeFailed
deriving DecidableEq

/-- Network or filesystem effect performed by the cache manager, recorded
in order. -/
inductive NetOp where
  | commitSHA1 (ctx : Ctx) (repo : Repo) (refSpec : String)
  | contents (ctx : Ctx) (repo : Repo) (path : String) (ref : String)
deriving DecidableEq

inductive FsOp where
  | mkdirAll (dir : String)
  | writeFile (file : String)
deriving DecidableEq

inductive Effect where
  | net (op : NetOp)
  | fs (op : FsOp)
deriving DecidableEq

def netOpsOf (effs : List Effect) : List NetOp :=
  effs.filterMap fun e => match e with | .net op => some op | .fs _ => none

def fsOpsOf (effs : List Effect) : List FsOp :=
  effs.filterMap fun e => match e with | .fs op => some op | .net _ => none

/-- The environment a `FetchRegistrySpec` call runs in: the outcome of the
disk-cache `load` (a helper outside these sources: spec §4.3 step 1, an
optional cached inventory, an existence flag and a possible load error),
the transport's answers, the (un)marshaller outcomes, and whether the
filesystem calls succeed. -/
structure GHEnv where
  loadSpec : Option Spec
  loadExists : Bool
  loadErr : Bool
  commitSHA1Result : Except Unit String
  contents : String → String → FileFetchResult
  unmarshal : String → Option Spec
  marshal : Spec → Option String
  mkdirOk : Bool
  writeOk : Bool
  cacheRoot : String

/-- `resolveLatestSHA` (github.go lines 131-157): one `CommitSHA1` call
under a 10-second timeout context. -/
def resolveLatestSHA (gh : GH) (env : GHEnv) : Except FetchErr String × List Effect :=
  let eff := [Effect.net (NetOp.commitSHA1 resolveLatestSHACtx (hubRepo gh.hd) gh.hd.refSpec)]
  match env.commitSHA1Result with
  | .error _ => (.error .transport, eff)
  | .ok sha => (.ok sha, eff)

/-- `fetchRemoteSpec` (github.go lines 260-290): fetch the manifest file at
`cs`, decode it, deserialize it, and stamp `Version` with the refspec it
was fetched at. -/
def fetchRemoteSpec (env : GHEnv) (cs : ContentSpec) : Except FetchErr Spec × List Effect :=
  let eff := [Effect.net (NetOp.contents fetchRemoteSpecCtx cs.repo cs.path cs.refSpec)]
  match env.contents cs.path cs.refSpec with
  | .fetchErr => (.error .transport, eff)
  | .noFile => (.error .noValidRegistry, eff)
  | .fileContent none => (.error .contentDecode, eff)
  | .fileContent (some text) =>
    match env.unmarshal text with
    | none => (.error .unmarshalFailed, eff)
    | some sp => (.ok { sp with version := cs.refSpec }, eff)

/-- `cachedVersion` (github.go lines 186-189). -/
def cachedVersionOf (env : GHEnv) : String :=
  match env.loadSpec with
  | some s => s.version
  | none => ""

/-- `exists` after the load-error demotion (github.go lines 180-184). -/
def cacheLoadedOK (env : GHEnv) : Bool :=
  !env.loadErr && env.loadExists

/-- The cache-hit test `exists && cachedVersion == sha` (github.go line 207). -/
def cacheIsCurrent (env : GHEnv) (sha : String) : Bool :=
  cacheLoadedOK env && cachedVersionOf env == sha

/-- The `err != nil || sha == ""` test (github.go line 193): `none` when
revision resolution failed or produced an empty identifier. -/
def shaOutcome : Except FetchErr String → Option String
  | .error _ => none
  | .ok s => if s = "" then none else some s

/-- Cache directory `<cache-root>/<registry-name>` (github.go line 242;
`registryCacheRoot` lives outside these sources, abstracted as
`env.cacheRoot`). -/
def registrySpecDirPath (env : GHEnv) (gh : GH) : String :=
  env.cacheRoot ++ "/" ++ gh.name

/-- Cache file `<cache-root>/<registry-name>/registry.yaml`.  Modelled from
the spec: "cache file path = cache-root / registry-name /
manifest-filename" (the `registrySpecFilePath` helper is outside these
sources). -/
def registrySpecFileOf (env : GHEnv) (gh : GH) : String :=
  registrySpecDirPath env gh ++ "/" ++ registryYAMLFile

/-- The `ContentSpec` built at github.go lines 221-225. -/
def csOf (gh : GH) (sha : String) : ContentSpec :=
  ⟨hubRepo gh.hd, gh.hd.regSpecRepoPath, sha⟩

/-- github.go lines 219-253: the stale/missing-cache tail of
`FetchRegistrySpec` — fetch from remote, re-stamp library versions,
serialize, and only then create the cache directory and write the cache
file.  `effPre` is the effect trace accumulated before this point. -/
def fetchAndCache (gh : GH) (env : GHEnv) (sha : String) (effPre : List Effect) :
    Except FetchErr (Option Spec) × List Effect :=
  match (fetchRemoteSpec env (csOf gh sha)).1 with
  | .error e => (.error e, effPre ++ (fetchRemoteSpec env (csOf gh sha)).2)
  | .ok spec0 =>
    match env.marshal (updateLibVersions spec0 sha) with
    | none => (.error .marshalFailed, effPre ++ (fetchRemoteSpec env (csOf gh sha)).2)
    | some _bytes =>
      if env.mkdirOk then
        if env.writeOk then
          (.ok (some (updateLibVersions spec0 sha)),
           effPre ++ (fetchRemoteSpec env (csOf gh sha)).2
             ++ [Effect.fs (FsOp.mkdirAll (registrySpecDirPath env gh)),
                 Effect.fs (FsOp.writeFile (registrySpecFileOf env gh))])
        else
          (.error .writeFailed,
           effPre ++ (fetchRemoteSpec env (csOf gh sha)).2
             ++ [Effect.fs (FsOp.mkdirAll (registrySpecDirPath env gh)),
                 Effect.fs (FsOp.writeFile (registrySpecFileOf env gh))])
      else
        (.error .mkdirFailed,
         effPre ++ (fetchRemoteSpec env (csOf gh sha)).2
           ++ [Effect.fs (FsOp.mkdirAll (registrySpecDirPath env gh))])

/-- `errMsg := errors.Wrapf(err, "unable to resolve commit ...")` at
github.go line 194, and the `return nil, errMsg` that uses it when no
usable cache exists.  `pkg/errors.Wrapf` returns nil when its error
argument is nil, so when `resolveLatestSHA` succeeded but produced an
empty identifier (`err == nil`, `sha == ""`), `errMsg` is nil and the
function returns `(nil, nil)` — a nil inventory with a nil error,
represented as `.ok none`.  Only a genuinely failed resolution wraps into
a real error. -/
def wrapResolveErr : Except FetchErr String → Except FetchErr (Option Spec)
  | .error _ => .error .resolveFailed
  | .ok _ => .ok none

/-- `FetchRegistrySpec` (github.go lines 173-254).  The result carries the
returned pointer (`none` for the nil-spec returns, including the
`(nil, nil)` empty-identifier path of `wrapResolveErr`) and the ordered
list of network and filesystem effects. -/
def FetchRegistrySpec (gh : GH) (env : GHEnv) : Except FetchErr (Option Spec) × List Effect :=
  match shaOutcome (resolveLatestSHA gh env).1 with
  | none =>
    if env.loadSpec.isNone || cachedVersionOf env = "" then
      (wrapResolveErr (resolveLatestSHA gh env).1, (resolveLatestSHA gh env).2)
    else (.ok (updateLibVersionsOpt env.loadSpec gh.hd.refSpec), (resolveLatestSHA gh env).2)
  | some sha =>
    if cacheIsCurrent env sha then
      (.ok (updateLibVersionsOpt env.loadSpec sha), (resolveLatestSHA gh env).2)
    else
      fetchAndCache gh env sha (resolveLatestSHA gh env).2

/-! ## Content resolver (`resolveDir`, github.go lines 430-472)

The remote tree, as the transport reports it to the traversal, is an
inductive structure: each directory entry carries the outcome of the
`Contents` call the traversal will make for it.  A `file` entry carries
the outcome of its content re-fetch; a `dir` entry carries the outcome of
listing it. -/

/-- Outcome of re-fetching a `file`-typed entry (github.go lines 443-453):
transport error, the API reporting a directory instead (the INTERNAL
ERROR branch), a `GetContent` failure, or the decoded text. -/
inductive FileRefetch where
  | fetchErr
  | reportedDir
  | contentErr
  | content (text : String)

mutual
inductive DirFetch where
  /-- `Contents` returned an error for this directory path. -/
  | fetchErr : DirFetch
  /-- `Contents` returned a file: "Lib ID resolves to a file". -/
  | reportedFile : DirFetch
  /-- `Contents` returned this listing. -/
  | listing : List Item → DirFetch

inductive Item where
  | file : String → FileRefetch → Item
  | dir : String → DirFetch → Item
  | symlink : String → Item
  | submodule : String → Item
  /-- an entry whose `GetType()` matches no switch case is skipped -/
  | other : String → Item
end

inductive ResolveErr where
  | transport
  /-- "Lib ID %q resolves to a file in registry %q" -/
  | libResolvesToFile (libID : String)
  /-- "INTERNAL ERROR: GitHub API reported resource %q of type file, but returned type dir" -/
  | internalTypeMismatch (path : String)
  /-- `file.GetContent()` failed -/
  | contentErr
  /-- a caller-supplied callback returned an error -/
  | callbackErr
  /-- "Invalid library %q; ksonnet doesn't support libraries with symlinks or submodules" -/
  | invalidLibrary (libID : String)
deriving DecidableEq

/-- A recorded callback invocation. -/
inductive CB where
  | onFile (path : String) (contents : String)
  | onDir (path : String)
deriving DecidableEq

/-- The `for _, item := range directory` loop body of `resolveDir`
(github.go lines 440-469), with the recursive `resolveDir` call for a
`dir` entry inlined (its head, lines 433-438, is the match on the
entry's `DirFetch`).  Callbacks return `true` for success; the trace
records every invocation in order.  On any error the loop stops: nothing
after the failing entry runs. -/
def resolveItems (libID : String) (onFile : String → String → Bool) (onDir : String → Bool) :
    List Item → Except ResolveErr Unit × List CB
  | [] => (.ok (), [])
  | Item.file p fres :: rest =>
    (match fres with
     | .fetchErr => (.error .transport, [])
     | .reportedDir => (.error (.internalTypeMismatch p), [])
     | .contentErr => (.error .contentErr, [])
     | .content c =>
       if onFile p c then
         let r := resolveItems libID onFile onDir rest
         (r.1, CB.onFile p c :: r.2)
       else (.error .callbackErr, [CB.onFile p c]))
  | Item.dir p sub :: rest =>
    if onDir p then
      match sub with
      | .fetchErr => (.error .transport, [CB.onDir p])
      | .reportedFile => (.error (.libResolvesToFile libID), [CB.onDir p])
      | .listing its =>
        let rsub := resolveItems libID onFile onDir its
        match rsub.1 with
        | .error e => (.error e, CB.onDir p :: rsub.2)
        | .ok _ =>
          let r := resolveItems libID onFile onDir rest
          (r.1, CB.onDir p :: (rsub.2 ++ r.2))
    else (.error .callbackErr, [CB.onDir p])
  | Item.symlink _ :: rest => resolveItems libID onFile onDir rest
  | Item.other _ :: rest => resolveItems libID onFile onDir rest
  | Item.submodule _ :: _ => (.error (.invalidLibrary libID), [])

/-- `resolveDir` (github.go lines 430-472) on the root path: the head
match on the `Contents` outcome, then the loop over the listing. -/
def resolveDir (libID : String) (root : DirFetch)
    (onFile : String → String → Bool) (onDir : String → Bool) :
    Except ResolveErr Unit × List CB :=
  match root with
  | .fetchErr => (.error .transport, [])
  | .reportedFile => (.error (.libResolvesToFile libID), [])
  | .listing its => resolveItems libID onFile onDir its

/-- Whether a listing contains a `submodule` entry at any depth. -/
def containsSubmoduleItems : List Item → Bool
  | [] => false
  | Item.submodule _ :: _ => true
  | Item.dir _ (DirFetch.listing its) :: rest =>
    containsSubmoduleItems its || containsSubmoduleItems rest
  | _ :: rest => containsSubmoduleItems rest

def containsSubmoduleDir : DirFetch → Bool
  | DirFetch.listing its => containsSubmoduleItems its
  | _ => false

/-! ## Path rebasing (`rebaseToRoot`, `chrootOnFile`, github.go 331-361, 658-671) -/

/-- `rebaseToRoot` (github.go lines 658-671): strip a leading `/`, then the
registry-relative root, then any leading `/` again.  The Go error returns
require a nil receiver or nil descriptor, which the embedding's `GH`
excludes. -/
def rebaseToRoot (gh : GH) (path : String) : String :=
  trimPrefixStr (trimPrefixStr (trimPrefixStr path "/") gh.hd.regRepoPath) "/"

/-- `chrootOnFile` (github.go lines 337-345): decorate a file callback so it
receives the rebased path. -/
def chrootOnFile (gh : GH) (onFile : String → String → Bool) : String → String → Bool :=
  fun relPath contents => onFile (rebaseToRoot gh relPath) contents

/-- `chrootOnDir` (github.go lines 353-361). -/
def chrootOnDir (gh : GH) (onDir : String → Bool) : String → Bool :=
  fun relPath => onDir (rebaseToRoot gh relPath)

/-! ## Helper lemmas -/

theorem updateLibVersions_version (sp : Spec) (v : String) :
    (updateLibVersions sp v).version = sp.version := rfl

theorem updateLibVersions_libraries (sp : Spec) (v : String) :
    ∀ l ∈ (updateLibVersions sp v).libraries, l.version = v := by
  intro l hl
  simp only [updateLibVersions, List.mem_map] at hl
  obtain ⟨a, -, rfl⟩ := hl
  rfl

theorem resolveLatestSHA_trace (gh : GH) (env : GHEnv) :
    (resolveLatestSHA gh env).2 =
      [Effect.net (NetOp.commitSHA1 resolveLatestSHACtx (hubRepo gh.hd) gh.hd.refSpec)] := by
  unfold resolveLatestSHA
  cases env.commitSHA1Result <;> rfl

theorem fetchRemoteSpec_trace (env : GHEnv) (cs : ContentSpec) :
    (fetchRemoteSpec env cs).2 =
      [Effect.net (NetOp.contents fetchRemoteSpecCtx cs.repo cs.path cs.refSpec)] := by
  unfold fetchRemoteSpec
  cases env.contents cs.path cs.refSpec with
  | fetchErr => rfl
  | noFile => rfl
  | fileContent o =>
    cases o with
    | none => rfl
    | some t =>
      dsimp only
      cases env.unmarshal t <;> rfl

theorem fetchRemoteSpec_version (env : GHEnv) (cs : ContentSpec) (sp : Spec)
    (h : (fetchRemoteSpec env cs).1 = .ok sp) : sp.version = cs.refSpec := by
  unfold fetchRemoteSpec at h
  cases hc : env.contents cs.path cs.refSpec <;> rw [hc] at h <;> dsimp only at h
  case fetchErr => exact absurd h (by simp)
  case noFile => exact absurd h (by simp)
  case fileContent o =>
    cases o with
    | none => exact absurd h (by simp)
    | some t =>
      dsimp only at h
      cases hu : env.unmarshal t <;> rw [hu] at h <;> dsimp only at h
      · exact absurd h (by simp)
      · simp only [Except.ok.injEq] at h
        rw [← h]

/-! ## Sample objects used by witnesses and counterexamples -/

def sampleHD : hubDescriptor :=
  ⟨none, "ksonnet", "parts", "master", "incubator", "incubator/registry.yaml"⟩

def sampleGH : GH := ⟨"incubator", sampleHD⟩

def sampleSpec : Spec := ⟨"", [⟨"apache", "1.2.3"⟩, ⟨"mysql", "4.5"⟩]⟩

def sampleEnvFetch : GHEnv :=
  { loadSpec := none, loadExists := false, loadErr := false,
    commitSHA1Result := .ok "abc123",
    contents := fun _ _ => .fileContent (some "text"),
    unmarshal := fun _ => some sampleSpec,
    marshal := fun _ => some "bytes",
    mkdirOk := true, writeOk := true, cacheRoot := "/cache" }

def cachedSampleSpec : Spec := ⟨"cafe00", [⟨"redis", "9.9"⟩]⟩

def envShaFail : GHEnv :=
  { loadSpec := some cachedSampleSpec, loadExists := true, loadErr := false,
    commitSHA1Result := .error (),
    contents := fun _ _ => .fetchErr,
    unmarshal := fun _ => none,
    marshal := fun _ => none,
    mkdirOk := true, writeOk := true, cacheRoot := "/cache" }

def envMarshalFail : GHEnv := { sampleEnvFetch with marshal := fun _ => none }

/-! ## Claims about the transport and the cache manager -/

/-- C10: the default transport's `CommitSHA1` with an empty revision
reference behaves exactly as with the literal reference `"master"`: the
empty reference is replaced before the lookup, so the upstream API only
ever sees the hardcoded `"master"`. -/
theorem commitSHA1_empty_refspec (upstream : Ctx → Repo → String → Except String String)
    (ctx : Ctx) (repo : Repo) :
    CommitSHA1 upstream ctx repo "" = upstream ctx repo "master"
    ∧ CommitSHA1 upstream ctx repo "" = CommitSHA1 upstream ctx repo "master" :=
  ⟨rfl, rfl⟩

/-- C1 (failing input for the code bug): on well-formed public registry
URIs of every supported shape — repository root, `tree`+path,
`blob`+manifest — `parseGitHubURI` panics on the nil `baseURL`
dereference in the debug print at github.go line 558 instead of
returning a descriptor. -/
theorem parse_public_panics :
    parseGitHubURI "github.com/ksonnet/parts" = ParseResult.panicNilPointer
    ∧ parseGitHubURI "github.com/ksonnet/parts/tree/master/incubator" = ParseResult.panicNilPointer
    ∧ parseGitHubURI "github.com/ksonnet/parts/blob/master/registry.yaml" = ParseResult.panicNilPointer
    ∧ parseGitHubURI "github.com/onlyorg" = ParseResult.panicNilPointer :=
  ⟨rfl, rfl, rfl, rfl⟩

/-- C2 (amended): when revision resolution fails or yields an empty
identifier, `FetchRegistrySpec` returns the cached inventory (libraries
re-stamped with the configured, unresolved reference) if a usable cache
exists; without a usable cache it returns the wrapped resolve error —
which is a real error exactly when the resolution call itself returned a
non-nil error, while a nil-error empty identifier wraps to nil
(`errors.Wrapf(nil, ...)` is nil) and the call returns a nil inventory
with a nil error instead of an error. -/
theorem fetchRegistrySpec_fallback (gh : GH) (env : GHEnv)
    (h : shaOutcome (resolveLatestSHA gh env).1 = none) :
    (∀ rs, env.loadSpec = some rs → rs.version ≠ "" →
       (FetchRegistrySpec gh env).1 = .ok (some (updateLibVersions rs gh.hd.refSpec))
       ∧ ∀ l ∈ (updateLibVersions rs gh.hd.refSpec).libraries, l.version = gh.hd.refSpec)
    ∧ ((env.loadSpec = none ∨ cachedVersionOf env = "") →
       (FetchRegistrySpec gh env).1 = wrapResolveErr (resolveLatestSHA gh env).1
       ∧ (∀ u, env.commitSHA1Result = .error u →
           wrapResolveErr (resolveLatestSHA gh env).1 = .error .resolveFailed)
       ∧ (env.commitSHA1Result = .ok "" →
           wrapResolveErr (resolveLatestSHA gh env).1 = .ok none)) := by
  constructor
  · intro rs hrs hver
    constructor
    · unfold FetchRegistrySpec
      rw [h]
      simp [hrs, cachedVersionOf, hver, updateLibVersionsOpt]
    · exact updateLibVersions_libraries rs gh.hd.refSpec
  · intro hcase
    refine ⟨?_, ?_, ?_⟩
    · unfold FetchRegistrySpec
      rw [h]
      rcases hcase with hnone | hver
      · simp [hnone]
      · simp [hver]
    · intro u hu
      unfold resolveLatestSHA
      rw [hu]
      rfl
    · intro hok
      unfold resolveLatestSHA
      rw [hok]
      rfl


theorem fetchAndCache_contents_mem (gh : GH) (env : GHEnv) (sha : String) (effPre : List Effect) :
    Effect.net (NetOp.contents fetchRemoteSpecCtx (hubRepo gh.hd) gh.hd.regSpecRepoPath sha)
      ∈ (fetchAndCache gh env sha effPre).2 := by
  unfold fetchAndCache
  rcases hr2 : (fetchRemoteSpec env (csOf gh sha)).1 with e | spec0 <;> dsimp only <;>
    rw [fetchRemoteSpec_trace env (csOf gh sha)]
  · simp [csOf]
  · rcases hm : env.marshal (updateLibVersions spec0 sha) with - | b <;> dsimp only
    · simp [csOf]
    · by_cases hmk : env.mkdirOk <;> by_cases hw : env.writeOk <;> simp [hmk, hw, csOf]

theorem fetchAndCache_ok (gh : GH) (env : GHEnv) (sha : String) (effPre : List Effect) (sp : Spec)
    (h : (fetchAndCache gh env sha effPre).1 = .ok (some sp)) :
    sp.version = sha ∧ ∀ l ∈ sp.libraries, l.version = sha := by
  unfold fetchAndCache at h
  rcases hr2 : (fetchRemoteSpec env (csOf gh sha)).1 with e | spec0 <;> rw [hr2] at h <;> dsimp only at h
  · exact absurd h (by simp)
  · rcases hm : env.marshal (updateLibVersions spec0 sha) with - | b <;> rw [hm] at h <;> dsimp only at h
    · exact absurd h (by simp)
    · by_cases hmk : env.mkdirOk <;> simp only [hmk, if_true, if_false, Bool.false_eq_true] at h
      · by_cases hw : env.writeOk <;> simp only [hw, if_true, if_false, Bool.false_eq_true] at h
        · simp only [Except.ok.injEq, Option.some.injEq] at h
          subst h
          have hv := fetchRemoteSpec_version env (csOf gh sha) spec0 hr2
          exact ⟨by rw [updateLibVersions_version, hv]; rfl,
                 updateLibVersions_libraries spec0 sha⟩
        · exact absurd h (by simp)
      · exact absurd h (by simp)

theorem fetchAndCache_fail (gh : GH) (env : GHEnv) (sha : String) (effPre : List Effect)
    (hfail : ∀ sp, (fetchRemoteSpec env (csOf gh sha)).1 = .ok sp →
        env.marshal (updateLibVersions sp sha) = none) :
    (∃ e, (fetchAndCache gh env sha effPre).1 = .error e)
    ∧ (fetchAndCache gh env sha effPre).2 = effPre ++ (fetchRemoteSpec env (csOf gh sha)).2 := by
  unfold fetchAndCache
  rcases hr2 : (fetchRemoteSpec env (csOf gh sha)).1 with e | spec0 <;> dsimp only
  · exact ⟨⟨e, rfl⟩, rfl⟩
  · rw [hfail spec0 hr2]
    exact ⟨⟨.marshalFailed, rfl⟩, rfl⟩

theorem fetchAndCache_fs_mem (gh : GH) (env : GHEnv) (sha : String) (effPre : List Effect)
    (op : FsOp) (hop : Effect.fs op ∈ (fetchAndCache gh env sha effPre).2)
    (hpre : Effect.fs op ∉ effPre) :
    ∃ sp, (fetchRemoteSpec env (csOf gh sha)).1 = .ok sp
      ∧ (env.marshal (updateLibVersions sp sha)).isSome = true := by
  unfold fetchAndCache at hop
  rcases hr2 : (fetchRemoteSpec env (csOf gh sha)).1 with e | spec0 <;> rw [hr2] at hop <;>
    dsimp only at hop
  · rw [fetchRemoteSpec_trace] at hop
    simp at hop
    exact absurd hop hpre
  · rcases hm : env.marshal (updateLibVersions spec0 sha) with - | b <;> rw [hm] at hop <;>
      dsimp only at hop
    · rw [fetchRemoteSpec_trace] at hop
      simp at hop
      exact absurd hop hpre
    · exact ⟨spec0, rfl, by rw [hm]; rfl⟩

theorem fetchAndCache_trace_shape (gh : GH) (env : GHEnv) (sha : String) (effPre : List Effect) :
    ∀ e ∈ (fetchAndCache gh env sha effPre).2,
      e ∈ effPre
      ∨ e = Effect.net (NetOp.contents fetchRemoteSpecCtx (hubRepo gh.hd) gh.hd.regSpecRepoPath sha)
      ∨ ∃ op, e = Effect.fs op := by
  intro e he
  unfold fetchAndCache at he
  rcases hr2 : (fetchRemoteSpec env (csOf gh sha)).1 with e2 | spec0 <;> rw [hr2] at he <;>
    dsimp only at he
  · rw [fetchRemoteSpec_trace] at he
    simp only [csOf, List.mem_append, List.mem_singleton] at he
    rcases he with he | he
    · exact Or.inl he
    · exact Or.inr (Or.inl he)
  · rcases hm : env.marshal (updateLibVersions spec0 sha) with - | b <;> rw [hm] at he <;>
      dsimp only at he
    · rw [fetchRemoteSpec_trace] at he
      simp only [csOf, List.mem_append, List.mem_singleton] at he
      rcases he with he | he
      · exact Or.inl he
      · exact Or.inr (Or.inl he)
    · rw [fetchRemoteSpec_trace] at he
      have hsplit : e ∈ effPre
          ∨ e = Effect.net (NetOp.contents fetchRemoteSpecCtx (hubRepo gh.hd) gh.hd.regSpecRepoPath sha)
          ∨ e = Effect.fs (FsOp.mkdirAll (registrySpecDirPath env gh))
          ∨ e = Effect.fs (FsOp.writeFile (registrySpecFileOf env gh)) := by
        by_cases hmk : env.mkdirOk <;> by_cases hw : env.writeOk <;>
          simp only [hmk, hw, if_true, if_false, Bool.false_eq_true, csOf, List.mem_append,
            List.mem_singleton, List.mem_cons, List.not_mem_nil, or_false] at he <;>
          tauto
      rcases hsplit with h | h | h | h
      · exact Or.inl h
      · exact Or.inr (Or.inl h)
      · exact Or.inr (Or.inr ⟨_, h⟩)
      · exact Or.inr (Or.inr ⟨_, h⟩)

theorem fetchRegistrySpec_trace_shape (gh : GH) (env : GHEnv) :
    ∀ e ∈ (FetchRegistrySpec gh env).2,
      e = Effect.net (NetOp.commitSHA1 resolveLatestSHACtx (hubRepo gh.hd) gh.hd.refSpec)
      ∨ (∃ sha, e = Effect.net (NetOp.contents fetchRemoteSpecCtx (hubRepo gh.hd) gh.hd.regSpecRepoPath sha))
      ∨ ∃ op, e = Effect.fs op := by
  intro e he
  unfold FetchRegistrySpec at he
  rcases hs : shaOutcome (resolveLatestSHA gh env).1 with - | sha <;> rw [hs] at he <;>
    dsimp only at he
  · split at he <;> rw [resolveLatestSHA_trace] at he <;> simp at he <;> exact Or.inl he
  · split at he
    · rw [resolveLatestSHA_trace] at he
      simp at he
      exact Or.inl he
    · rcases fetchAndCache_trace_shape gh env sha _ e he with hpre | hc | hfs
      · rw [resolveLatestSHA_trace] at hpre
        simp at hpre
        exact Or.inl hpre
      · exact Or.inr (Or.inl ⟨sha, hc⟩)
      · exact Or.inr (Or.inr hfs)

/-- C3: when revision resolution succeeds with identifier `sha` and the
cached inventory is not current at `sha` (stale or missing),
`FetchRegistrySpec` fetches fresh inventory content from the transport at
`sha`, and any inventory it returns has its `Version` field stamped to
`sha` with every library entry's version also overwritten to `sha`. -/
theorem fetchRegistrySpec_stale_refetch (gh : GH) (env : GHEnv) (sha : String)
    (hsha : shaOutcome (resolveLatestSHA gh env).1 = some sha)
    (hstale : cacheIsCurrent env sha = false) :
    Effect.net (NetOp.contents fetchRemoteSpecCtx (hubRepo gh.hd) gh.hd.regSpecRepoPath sha)
      ∈ (FetchRegistrySpec gh env).2
    ∧ ∀ sp, (FetchRegistrySpec gh env).1 = .ok (some sp) →
        sp.version = sha ∧ ∀ l ∈ sp.libraries, l.version = sha := by
  constructor
  · unfold FetchRegistrySpec
    rw [hsha]
    dsimp only
    rw [hstale]
    simp only [Bool.false_eq_true, if_false]
    exact fetchAndCache_contents_mem gh env sha _
  · intro sp hsp
    unfold FetchRegistrySpec at hsp
    rw [hsha] at hsp
    dsimp only at hsp
    rw [hstale] at hsp
    simp only [Bool.false_eq_true, if_false] at hsp
    exact fetchAndCache_ok gh env sha _ sp hsp

/-- C7: `FetchRegistrySpec` performs a filesystem mutation only after the
remote fetch and the serialization have both succeeded; when either
fails, the call returns an error and its effect trace contains no
filesystem operation at all. -/
theorem fetchRegistrySpec_no_partial_write (gh : GH) (env : GHEnv) :
    (∀ op, Effect.fs op ∈ (FetchRegistrySpec gh env).2 →
       ∃ sha sp, shaOutcome (resolveLatestSHA gh env).1 = some sha
         ∧ (fetchRemoteSpec env (csOf gh sha)).1 = .ok sp
         ∧ (env.marshal (updateLibVersions sp sha)).isSome = true)
    ∧ (∀ sha, shaOutcome (resolveLatestSHA gh env).1 = some sha →
       cacheIsCurrent env sha = false →
       (∀ sp, (fetchRemoteSpec env (csOf gh sha)).1 = .ok sp →
          env.marshal (updateLibVersions sp sha) = none) →
       ∃ e, (FetchRegistrySpec gh env).1 = .error e
         ∧ fsOpsOf (FetchRegistrySpec gh env).2 = []) := by
  constructor
  · intro op hop
    unfold FetchRegistrySpec at hop
    rcases hs : shaOutcome (resolveLatestSHA gh env).1 with - | sha <;> rw [hs] at hop <;>
      dsimp only at hop
    · split at hop <;> rw [resolveLatestSHA_trace] at hop <;> simp at hop
    · split at hop
      · rw [resolveLatestSHA_trace] at hop
        simp at hop
      · have hpre : Effect.fs op ∉ (resolveLatestSHA gh env).2 := by
          rw [resolveLatestSHA_trace]
          simp
        obtain ⟨sp, h1, h2⟩ := fetchAndCache_fs_mem gh env sha _ op hop hpre
        exact ⟨sha, sp, rfl, h1, h2⟩
  · intro sha hs hstale hfail
    unfold FetchRegistrySpec
    rw [hs]
    dsimp only
    rw [hstale]
    simp only [Bool.false_eq_true, if_false]
    obtain ⟨⟨e, he⟩, htr⟩ := fetchAndCache_fail gh env sha (resolveLatestSHA gh env).2 hfail
    refine ⟨e, he, ?_⟩
    rw [htr, resolveLatestSHA_trace, fetchRemoteSpec_trace]
    simp [fsOpsOf]

/-- C5 (amended): only revision resolution (`resolveLatestSHA`) runs under
a per-call cancellable context with an explicit 10-second timeout; the
inventory content fetch, the library tree traversal and the library
manifest fetch all run under a fresh `context.Background()` with no
deadline.  Every `CommitSHA1` operation in a `FetchRegistrySpec` trace
carries the timeout context and every `Contents` operation carries the
deadline-free one; no context is stored on the object. -/
theorem networkContexts (gh : GH) (env : GHEnv) :
    resolveLatestSHACtx = Ctx.withTimeout Ctx.background 10
    ∧ Ctx.hasDeadline resolveLatestSHACtx = true
    ∧ Ctx.hasDeadline fetchRemoteSpecCtx = false
    ∧ Ctx.hasDeadline resolveDirCtx = false
    ∧ Ctx.hasDeadline resolveLibraryCtx = false
    ∧ (∀ c repo ref, Effect.net (NetOp.commitSHA1 c repo ref) ∈ (FetchRegistrySpec gh env).2 →
        c = resolveLatestSHACtx)
    ∧ (∀ c repo p ref, Effect.net (NetOp.contents c repo p ref) ∈ (FetchRegistrySpec gh env).2 →
        c = fetchRemoteSpecCtx) := by
  refine ⟨rfl, rfl, rfl, rfl, rfl, ?_, ?_⟩
  · intro c repo ref hmem
    rcases fetchRegistrySpec_trace_shape gh env _ hmem with h | ⟨sha, h⟩ | ⟨op, h⟩
    · injection h with h1
      injection h1
    · injection h with h1
      exact NetOp.noConfusion h1
    · exact Effect.noConfusion h
  · intro c repo p ref hmem
    rcases fetchRegistrySpec_trace_shape gh env _ hmem with h | ⟨sha, h⟩ | ⟨op, h⟩
    · injection h with h1
      exact NetOp.noConfusion h1
    · injection h with h1
      injection h1
    · exact Effect.noConfusion h

/-- C5 counterexample: in a run of `FetchRegistrySpec`, the inventory
content fetch is issued with `context.Background()`, a context with no
deadline — contradicting the claim that every network operation of the
cache manager carries an explicit timeout bound. -/
theorem fetch_network_op_without_deadline_cex :
    Effect.net (NetOp.contents fetchRemoteSpecCtx (hubRepo sampleHD) "incubator/registry.yaml" "abc123")
      ∈ (FetchRegistrySpec sampleGH sampleEnvFetch).2
    ∧ Ctx.hasDeadline fetchRemoteSpecCtx = false := by
  constructor
  · decide
  · rfl

/-- C5 witness for `networkContexts`: the commit-resolution operation of a
concrete `FetchRegistrySpec` run is in the trace, and the theorem applies
to it. -/
theorem networkContexts_witness :
    Effect.net (NetOp.commitSHA1 resolveLatestSHACtx (hubRepo sampleHD) "master")
      ∈ (FetchRegistrySpec sampleGH sampleEnvFetch).2
    ∧ resolveLatestSHACtx = resolveLatestSHACtx := by
  have hmem : Effect.net (NetOp.commitSHA1 resolveLatestSHACtx (hubRepo sampleHD) "master")
      ∈ (FetchRegistrySpec sampleGH sampleEnvFetch).2 := by decide
  exact ⟨hmem, (networkContexts sampleGH sampleEnvFetch).2.2.2.2.2.1
    resolveLatestSHACtx (hubRepo sampleHD) "master" hmem⟩

/-- Environment with a non-nil resolution error and no cache. -/
def envNoCacheErr : GHEnv := { envShaFail with loadSpec := none }

/-- Environment where the transport answers the commit resolution with an
empty identifier and a nil error, and no cache exists. -/
def envEmptySha : GHEnv := { sampleEnvFetch with commitSHA1Result := .ok "" }

/-- C2 counterexample: when the transport resolves the configured
reference to an empty identifier with a nil error and no usable cached
inventory exists, `FetchRegistrySpec` does not return an error — it
returns a nil inventory with a nil error, because the wrapped error
`errors.Wrapf(nil, ...)` is nil. -/
theorem fetchRegistrySpec_empty_sha_cex :
    envEmptySha.commitSHA1Result = .ok ""
    ∧ envEmptySha.loadSpec = none
    ∧ (FetchRegistrySpec sampleGH envEmptySha).1 = .ok none
    ∧ ∀ e : FetchErr, (FetchRegistrySpec sampleGH envEmptySha).1 ≠ .error e := by
  refine ⟨rfl, rfl, rfl, ?_⟩
  intro e h
  rw [show (FetchRegistrySpec sampleGH envEmptySha).1 = Except.ok none from rfl] at h
  cases h

/-- C2 witness: with a failing revision resolution, the fallback theorem
yields the cached inventory stamped with the configured reference when a
usable cache exists, and the wrapped resolve error without one. -/
theorem fetchRegistrySpec_fallback_witness :
    (FetchRegistrySpec sampleGH envShaFail).1
      = .ok (some (updateLibVersions cachedSampleSpec sampleGH.hd.refSpec))
    ∧ (FetchRegistrySpec sampleGH envNoCacheErr).1
      = wrapResolveErr (resolveLatestSHA sampleGH envNoCacheErr).1 :=
  ⟨((fetchRegistrySpec_fallback sampleGH envShaFail rfl).1 cachedSampleSpec rfl (by decide)).1,
   ((fetchRegistrySpec_fallback sampleGH envNoCacheErr rfl).2 (Or.inl rfl)).1⟩

/-- C3 witness: with a fresh identifier and no cache, the staleness theorem
shows the content fetch at that identifier is in the trace. -/
theorem fetchRegistrySpec_stale_refetch_witness :
    Effect.net (NetOp.contents fetchRemoteSpecCtx (hubRepo sampleGH.hd)
        sampleGH.hd.regSpecRepoPath "abc123")
      ∈ (FetchRegistrySpec sampleGH sampleEnvFetch).2 :=
  (fetchRegistrySpec_stale_refetch sampleGH sampleEnvFetch "abc123" rfl rfl).1

/-- C7 witness: with a failing serializer the no-partial-write theorem
yields an error result with an effect trace free of filesystem
operations. -/
theorem fetchRegistrySpec_no_partial_write_witness :
    ∃ e, (FetchRegistrySpec sampleGH envMarshalFail).1 = .error e
      ∧ fsOpsOf (FetchRegistrySpec sampleGH envMarshalFail).2 = [] :=
  (fetchRegistrySpec_no_partial_write sampleGH envMarshalFail).2 "abc123" rfl rfl
    (fun _ _ => rfl)

/-! ## Claims about the content resolver -/

theorem resolveItems_contains_submodule_error (libID : String)
    (onFile : String → String → Bool) (onDir : String → Bool) :
    ∀ its, containsSubmoduleItems its = true →
      ∃ e, (resolveItems libID onFile onDir its).1 = .error e := by
  intro its
  induction its using containsSubmoduleItems.induct with
  | case1 =>
    intro h
    exact absurd h (by simp [containsSubmoduleItems])
  | case2 p tail =>
    intro _
    exact ⟨.invalidLibrary libID, by simp [resolveItems]⟩
  | case3 p its rest ih1 ih2 =>
    intro h
    rw [containsSubmoduleItems] at h
    by_cases hd : onDir p
    · rcases hsub : (resolveItems libID onFile onDir its).1 with e | u
      · exact ⟨e, by simp [resolveItems, hd, hsub]⟩
      · rcases Bool.or_eq_true_iff.mp h with hits | hrest
        · obtain ⟨e, he⟩ := ih1 hits
          rw [he] at hsub
          cases hsub
        · obtain ⟨e, he⟩ := ih2 hrest
          exact ⟨e, by simp [resolveItems, hd, hsub, he]⟩
    · exact ⟨.callbackErr, by simp [resolveItems, hd]⟩
  | case4 head rest hns hnd ih =>
    intro h
    have hrest : containsSubmoduleItems rest = true := by
      cases head with
      | file p fres => simpa [containsSubmoduleItems] using h
      | dir p sub =>
        cases sub with
        | fetchErr => simpa [containsSubmoduleItems] using h
        | reportedFile => simpa [containsSubmoduleItems] using h
        | listing its => exact absurd rfl (hnd p its)
      | symlink p => simpa [containsSubmoduleItems] using h
      | submodule p => exact absurd rfl (hns p)
      | other p => simpa [containsSubmoduleItems] using h
    obtain ⟨e, he⟩ := ih hrest
    cases head with
    | file p fres =>
      cases fres with
      | fetchErr => exact ⟨.transport, by simp [resolveItems]⟩
      | reportedDir => exact ⟨.internalTypeMismatch p, by simp [resolveItems]⟩
      | contentErr => exact ⟨.contentErr, by simp [resolveItems]⟩
      | content c =>
        by_cases hf : onFile p c
        · exact ⟨e, by simp [resolveItems, hf, he]⟩
        · exact ⟨.callbackErr, by simp [resolveItems, hf]⟩
    | dir p sub =>
      cases sub with
      | fetchErr =>
        by_cases hd : onDir p
        · exact ⟨.transport, by simp [resolveItems, hd]⟩
        · exact ⟨.callbackErr, by simp [resolveItems, hd]⟩
      | reportedFile =>
        by_cases hd : onDir p
        · exact ⟨.libResolvesToFile libID, by simp [resolveItems, hd]⟩
        · exact ⟨.callbackErr, by simp [resolveItems, hd]⟩
      | listing its => exact absurd rfl (hnd p its)
    | symlink p => exact ⟨e, by simp [resolveItems, he]⟩
    | submodule p => exact absurd rfl (hns p)
    | other p => exact ⟨e, by simp [resolveItems, he]⟩

/-- C6 (amended): a `submodule` entry at any depth makes `resolveDir` fail
(with the structural error naming the library when the traversal actually
reaches the submodule entry without an earlier abort, in which case no
callback is invoked at or after the failing entry); a `symlink` entry is
silently skipped — no error and no callback invocation. -/
theorem resolveDir_submodule_and_symlink (libID : String)
    (onFile : String → String → Bool) (onDir : String → Bool) :
    (∀ root, containsSubmoduleDir root = true →
       ∃ e, (resolveDir libID root onFile onDir).1 = .error e)
    ∧ (∀ p rest, resolveItems libID onFile onDir (Item.submodule p :: rest) =
        (.error (.invalidLibrary libID), []))
    ∧ (∀ p rest, resolveItems libID onFile onDir (Item.symlink p :: rest) =
        resolveItems libID onFile onDir rest) := by
  refine ⟨?_, ?_, ?_⟩
  · intro root h
    cases root with
    | fetchErr => exact absurd h (by simp [containsSubmoduleDir])
    | reportedFile => exact absurd h (by simp [containsSubmoduleDir])
    | listing its =>
      rw [containsSubmoduleDir] at h
      exact resolveItems_contains_submodule_error libID onFile onDir its h
  · intro p rest
    simp [resolveItems]
  · intro p rest
    simp [resolveItems]

/-- C6 counterexample: a directory listing whose first entry fails with a
transport error and whose second entry is a submodule.  The tree contains
a submodule, yet `resolveDir` returns the transport error — not the
structural "invalid library" error naming the library. -/
def cexSubmoduleItems : List Item := [Item.file "a" FileRefetch.fetchErr, Item.submodule "s"]

theorem resolveDir_submodule_transport_cex :
    containsSubmoduleItems cexSubmoduleItems = true
    ∧ (resolveDir "mylib" (DirFetch.listing cexSubmoduleItems)
        (fun _ _ => true) (fun _ => true)).1 = .error ResolveErr.transport
    ∧ ResolveErr.transport ≠ ResolveErr.invalidLibrary "mylib" := by
  refine ⟨by simp [cexSubmoduleItems, containsSubmoduleItems], ?_, by simp⟩
  simp [resolveDir, cexSubmoduleItems, resolveItems]

/-- C6 witness: the amended theorem applied to a concrete one-entry
submodule listing. -/
theorem resolveDir_submodule_and_symlink_witness :
    ∃ e, (resolveDir "w" (DirFetch.listing [Item.submodule "q"])
      (fun _ _ => true) (fun _ => true)).1 = .error e :=
  (resolveDir_submodule_and_symlink "w" (fun _ _ => true) (fun _ => true)).1
    (DirFetch.listing [Item.submodule "q"])
    (by simp [containsSubmoduleDir, containsSubmoduleItems])

/-! ## Claims about path rebasing -/

/-- C8: the path handed to the decorated callbacks is registry-root
relative — for repository-root-relative inputs (no leading separator) it
equals the input with the descriptor's registry-relative path stripped as
a prefix and then any leading separator stripped; in particular with
registry-relative path `incubator`, the repository file
`incubator/pkg/manifest.yaml` reaches `onFile` as `pkg/manifest.yaml`
(and a directory `incubator/pkg` reaches `onDir` as `pkg`). -/
theorem chroot_rebases_paths :
    (∀ gh path, startsWithStr path "/" = false →
       rebaseToRoot gh path = trimPrefixStr (trimPrefixStr path gh.hd.regRepoPath) "/")
    ∧ (∀ gh, gh.hd.regRepoPath = "incubator" →
       ∀ onFile contents, chrootOnFile gh onFile "incubator/pkg/manifest.yaml" contents
         = onFile "pkg/manifest.yaml" contents)
    ∧ (∀ gh, gh.hd.regRepoPath = "incubator" →
       ∀ onDir, chrootOnDir gh onDir "incubator/pkg" = onDir "pkg") := by
  have hnoPre : ∀ s p : String, startsWithStr s p = false → trimPrefixStr s p = s := by
    intro s p h
    rw [trimPrefixStr, h]
    simp
  refine ⟨?_, ?_, ?_⟩
  · intro gh path h
    rw [rebaseToRoot, hnoPre path "/" h]
  · intro gh h onFile contents
    have hre : rebaseToRoot gh "incubator/pkg/manifest.yaml" = "pkg/manifest.yaml" := by
      rw [rebaseToRoot, h]
      decide
    rw [chrootOnFile, hre]
  · intro gh h onDir
    have hre : rebaseToRoot gh "incubator/pkg" = "pkg" := by
      rw [rebaseToRoot, h]
      decide
    rw [chrootOnDir, hre]

/-- C8 witness: the rebasing theorem applied at the concrete registry of
the claim's example. -/
theorem chroot_rebases_paths_witness :
    rebaseToRoot sampleGH "incubator/pkg/manifest.yaml"
      = trimPrefixStr (trimPrefixStr "incubator/pkg/manifest.yaml" sampleGH.hd.regRepoPath) "/"
    ∧ chrootOnFile sampleGH (fun p _ => p == "pkg/manifest.yaml") "incubator/pkg/manifest.yaml" "c"
      = (fun (p : String) (_ : String) => p == "pkg/manifest.yaml") "pkg/manifest.yaml" "c" :=
  ⟨chroot_rebases_paths.1 sampleGH "incubator/pkg/manifest.yaml" rfl,
   (chroot_rebases_paths.2.1 sampleGH rfl) (fun p _ => p == "pkg/manifest.yaml") "c"⟩

/-! ## Claims about the URI parser -/

theorem enterpriseTail_refSpec (qRef : String) (baseURL : Option String) (org repo : String)
    (b : Nat) (components : List String) (hd : hubDescriptor)
    (h : enterpriseTail qRef baseURL org repo b components = .ok hd) :
    hd.refSpec = if components.length > b + 4 then qRef else defaultGitHubBranch := by
  unfold enterpriseTail at h
  by_cases hlen : components.length > b + 4
  · rw [if_pos hlen] at h
    rw [if_pos hlen]
    split at h <;> injection h with h1 <;> rw [← h1]
  · rw [if_neg hlen] at h
    rw [if_neg hlen]
    injection h with h1
    rw [← h1]

/-- Successful parses are exactly the enterprise descriptors: the public
branch ends in an error or the nil-pointer panic, so `.ok` forces the
enterprise path with a `repos` anchor, an admissible query, and enough
path components. -/
theorem parse_ok_shape (uri : String) (hd : hubDescriptor) (h : parseGitHubURI uri = .ok hd) :
    ∃ u b qRef,
      normalizeURI uri = some u
      ∧ endsWithStr (urlParse u).host "github.com" = false
      ∧ findReposIndex (splitOnChar '/' (urlParse u).path) = some b
      ∧ enterpriseQueryRef (urlParse u).rawQuery = some qRef
      ∧ ¬ (splitOnChar '/' (urlParse u).path).length < b + 3
      ∧ enterpriseTail qRef
          (some ((urlParse u).scheme ++ "://" ++ (urlParse u).host
            ++ goJoin ((splitOnChar '/' (urlParse u).path).take b) ++ "/"))
          ((splitOnChar '/' (urlParse u).path).getD (b + 1) "")
          ((splitOnChar '/' (urlParse u).path).getD (b + 2) "")
          b (splitOnChar '/' (urlParse u).path) = .ok hd := by
  unfold parseGitHubURI at h
  cases hn : normalizeURI uri with
  | none => rw [hn] at h; cases h
  | some u =>
    rw [hn] at h
    dsimp only at h
    unfold parseFromURL at h
    by_cases hent : endsWithStr (urlParse u).host "github.com" = true
    · rw [if_pos hent] at h
      split at h <;> cases h
    · rw [if_neg hent] at h
      cases hb : findReposIndex (splitOnChar '/' (urlParse u).path) with
      | none => rw [hb] at h; cases h
      | some b =>
        rw [hb] at h
        dsimp only at h
        cases hq : enterpriseQueryRef (urlParse u).rawQuery with
        | none => rw [hq] at h; cases h
        | some qRef =>
          rw [hq] at h
          dsimp only at h
          by_cases hlen : (splitOnChar '/' (urlParse u).path).length < b + 3
          · rw [if_pos hlen] at h
            cases h
          · rw [if_neg hlen] at h
            exact ⟨u, b, qRef, rfl, Bool.eq_false_iff.mpr hent, hb, hq, hlen, h⟩

/-- C4 (amended): for every URI `parseGitHubURI` accepts — necessarily an
enterprise one — the revision reference equals the value extracted from
the query (`enterpriseQueryRef`: the sole `ref` value, or empty when no
query is present) when the path extends beyond the repository root, but
is overwritten with the default branch `master` at the repository root,
overriding any `ref` parameter; an inadmissible query (multiple keys, a
key other than `ref`, or repeated `ref` values) makes an enterprise parse
return an error, and any query at all makes a public parse return an
error. -/
theorem parse_refspec_source :
    (∀ uri hd, parseGitHubURI uri = .ok hd →
       ∃ u b, normalizeURI uri = some u
         ∧ endsWithStr (urlParse u).host "github.com" = false
         ∧ findReposIndex (splitOnChar '/' (urlParse u).path) = some b
         ∧ hd.refSpec = (if (splitOnChar '/' (urlParse u).path).length > b + 4
                         then (enterpriseQueryRef (urlParse u).rawQuery).getD ""
                         else defaultGitHubBranch))
    ∧ (∀ uri u b, normalizeURI uri = some u →
       endsWithStr (urlParse u).host "github.com" = false →
       findReposIndex (splitOnChar '/' (urlParse u).path) = some b →
       enterpriseQueryRef (urlParse u).rawQuery = none →
       parseGitHubURI uri = .err ParseErr.badEnterpriseQuery)
    ∧ (∀ uri u, normalizeURI uri = some u →
       endsWithStr (urlParse u).host "github.com" = true →
       numQueryKeys (queryPairs (urlParse u).rawQuery) ≠ 0 →
       parseGitHubURI uri = .err ParseErr.queryNotAllowed) := by
  refine ⟨?_, ?_, ?_⟩
  · intro uri hd h
    obtain ⟨u, b, qRef, hn, hent, hb, hq, hlen, htail⟩ := parse_ok_shape uri hd h
    refine ⟨u, b, hn, hent, hb, ?_⟩
    rw [hq, Option.getD_some]
    exact enterpriseTail_refSpec _ _ _ _ _ _ _ htail
  · intro uri u b hn hent hb hq
    unfold parseGitHubURI
    rw [hn]
    dsimp only
    unfold parseFromURL
    rw [if_neg (by simp [hent]), hb]
    dsimp only
    rw [hq]
  · intro uri u hn hent hnq
    unfold parseGitHubURI
    rw [hn]
    dsimp only
    unfold parseFromURL
    rw [if_pos hent, if_pos hnq]

/-- C4 counterexample: an enterprise URI at the repository root with a
sole `ref=v1` query parameter is accepted, but its revision reference is
the default branch `master`, not `v1` (and not empty): at the repository
root the `ref` parameter is silently overridden. -/
theorem parse_enterprise_root_ref_cex :
    parseGitHubURI "https://github.example.com/api/v3/repos/org/repo?ref=v1"
      = ParseResult.ok ⟨some "https://github.example.com/api/v3/", "org", "repo",
          "master", "", "registry.yaml"⟩
    ∧ ("master" : String) ≠ "v1" := ⟨rfl, by decide⟩

/-- C4 witness: the amended theorem applied at three concrete URIs — an
accepted enterprise URI past the root with `ref=dev`, an enterprise URI
with a non-`ref` query parameter, and a public URI with a query
parameter. -/
theorem parse_refspec_source_witness :
    (∃ u b, normalizeURI "https://github.example.com/api/v3/repos/o/r/contents/x?ref=dev" = some u
       ∧ endsWithStr (urlParse u).host "github.com" = false
       ∧ findReposIndex (splitOnChar '/' (urlParse u).path) = some b
       ∧ (hubDescriptor.mk (some "https://github.example.com/api/v3/") "o" "r" "dev" "x"
            "x/registry.yaml").refSpec
          = (if (splitOnChar '/' (urlParse u).path).length > b + 4
             then (enterpriseQueryRef (urlParse u).rawQuery).getD ""
             else defaultGitHubBranch))
    ∧ parseGitHubURI "https://github.example.com/api/v3/repos/o/r?foo=1"
        = ParseResult.err ParseErr.badEnterpriseQuery
    ∧ parseGitHubURI "github.com/o/r?x=1" = ParseResult.err ParseErr.queryNotAllowed :=
  ⟨parse_refspec_source.1 "https://github.example.com/api/v3/repos/o/r/contents/x?ref=dev" _ rfl,
   parse_refspec_source.2.1 "https://github.example.com/api/v3/repos/o/r?foo=1"
     "https://github.example.com/api/v3/repos/o/r?foo=1" 3 rfl rfl rfl rfl,
   parse_refspec_source.2.2 "github.com/o/r?x=1" "http://github.com/o/r?x=1" rfl rfl (by decide)⟩

theorem dropLast_drop_comm {α : Type} (l : List α) (n : Nat) :
    (l.drop n).dropLast = l.dropLast.drop n := by
  rw [List.dropLast_eq_take (l.drop n), List.dropLast_eq_take l, List.drop_take,
    List.length_drop]
  congr 1
  omega

theorem mem_dropLast_or_getLast {α : Type} (l : List α) (hl : l ≠ []) (x : α) (hx : x ∈ l) :
    x ∈ l.dropLast ∨ x = l.getLast hl := by
  have hsplit := List.dropLast_append_getLast hl
  rw [← hsplit] at hx
  rcases List.mem_append.mp hx with h | h
  · exact Or.inl h
  · simp only [List.mem_singleton] at h
    exact Or.inr h

theorem splitOnCharAux_no_sep (sep : Char) :
    ∀ cs acc, sep ∉ acc → ∀ s ∈ splitOnCharAux sep cs acc, sep ∉ s.data := by
  intro cs
  induction cs with
  | nil =>
    intro acc hacc s hs
    simp only [splitOnCharAux, List.mem_singleton] at hs
    subst hs
    simpa using hacc
  | cons c cs2 ih =>
    intro acc hacc s hs
    simp only [splitOnCharAux] at hs
    by_cases hc : (c == sep) = true
    · rw [if_pos hc] at hs
      rcases List.mem_cons.mp hs with h | h
      · subst h
        simpa using hacc
      · exact ih [] (by simp) s h
    · rw [if_neg hc] at hs
      refine ih (c :: acc) ?_ s hs
      intro hmem
      rcases List.mem_cons.mp hmem with h | h
      · exact hc (beq_iff_eq.mpr h.symm)
      · exact hacc h

theorem splitOnChar_no_sep (sep : Char) (s : String) :
    ∀ seg ∈ splitOnChar sep s, sep ∉ seg.data :=
  splitOnCharAux_no_sep sep s.data [] (by simp)

theorem goJoin_cons_cons (a b : String) (t : List String) :
    goJoin (a :: b :: t) = a ++ "/" ++ goJoin (b :: t) := rfl

theorem goJoin_append_single (xs : List String) (y : String) (h : xs ≠ []) :
    goJoin (xs ++ [y]) = goJoin xs ++ "/" ++ y := by
  induction xs with
  | nil => exact absurd rfl h
  | cons a t ih =>
    cases t with
    | nil => rfl
    | cons b t2 =>
      have h1 : goJoin ((a :: b :: t2) ++ [y]) = a ++ "/" ++ goJoin ((b :: t2) ++ [y]) := rfl
      rw [h1, ih (by simp), goJoin_cons_cons]
      apply String.ext
      simp [String.data_append, List.append_assoc]

theorem goJoin_ne_empty_head (xs : List String) (h : xs ≠ [])
    (hall : ∀ s ∈ xs, s ≠ "" ∧ ('/' : Char) ∉ s.data) :
    ∃ c r, (goJoin xs).data = c :: r ∧ c ≠ '/' := by
  cases xs with
  | nil => exact absurd rfl h
  | cons a t =>
    obtain ⟨hne, hns⟩ := hall a (by simp)
    obtain ⟨c, cr, hdata⟩ : ∃ c cr, a.data = c :: cr := by
      cases hd : a.data with
      | nil => exact absurd (String.ext hd) hne
      | cons c cr => exact ⟨c, cr, rfl⟩
    have hc : c ≠ '/' := fun he => hns (he ▸ hdata ▸ List.mem_cons_self c cr)
    cases t with
    | nil => exact ⟨c, cr, by simpa [goJoin] using hdata, hc⟩
    | cons b t2 =>
      refine ⟨c, cr ++ ('/' :: (goJoin (b :: t2)).data), ?_, hc⟩
      rw [goJoin_cons_cons, String.data_append, String.data_append, hdata]
      have hslash : ("/" : String).data = ['/'] := rfl
      rw [hslash]
      simp

theorem goJoin_ne_empty_last (xs : List String) (h : xs ≠ [])
    (hall : ∀ s ∈ xs, s ≠ "" ∧ ('/' : Char) ∉ s.data) :
    ∃ c r, (goJoin xs).data.reverse = c :: r ∧ c ≠ '/' := by
  induction xs with
  | nil => exact absurd rfl h
  | cons a t ih =>
    cases t with
    | nil =>
      obtain ⟨hne, hns⟩ := hall a (by simp)
      obtain ⟨c, cr, hdata⟩ : ∃ c cr, a.data.reverse = c :: cr := by
        cases hd : a.data.reverse with
        | nil =>
          refine absurd (String.ext ?_) hne
          simpa using congrArg List.reverse hd
        | cons c cr => exact ⟨c, cr, rfl⟩
      have hcmem : c ∈ a.data := by
        rw [← List.mem_reverse, hdata]
        simp
      exact ⟨c, cr, by simpa [goJoin] using hdata, fun he => hns (he ▸ hcmem)⟩
    | cons b t2 =>
      obtain ⟨c, r, hrev, hc⟩ := ih (by simp) (fun s hs => hall s (by simp [hs]))
      refine ⟨c, r ++ ('/' :: a.data.reverse), ?_, hc⟩
      rw [goJoin_cons_cons, String.data_append, String.data_append]
      have hslash : ("/" : String).data = ['/'] := rfl
      rw [hslash, List.reverse_append, List.reverse_append, hrev]
      simp

theorem goJoin_no_leading_slash (xs : List String) (h : xs ≠ [])
    (hall : ∀ s ∈ xs, s ≠ "" ∧ ('/' : Char) ∉ s.data) :
    startsWithStr (goJoin xs) "/" = false := by
  obtain ⟨c, r, hd, hc⟩ := goJoin_ne_empty_head xs h hall
  rw [startsWithStr]
  have hslash : ("/" : String).data = ['/'] := rfl
  rw [hslash, hd]
  simp [listStartsWith, beq_eq_false_iff_ne.mpr (Ne.symm hc)]

theorem goJoin_no_trailing_slash (xs : List String) (h : xs ≠ [])
    (hall : ∀ s ∈ xs, s ≠ "" ∧ ('/' : Char) ∉ s.data) :
    endsWithStr (goJoin xs) "/" = false := by
  obtain ⟨c, r, hd, hc⟩ := goJoin_ne_empty_last xs h hall
  rw [endsWithStr]
  have hslash : ("/" : String).data.reverse = ['/'] := rfl
  rw [hslash, hd]
  simp [listStartsWith, beq_eq_false_iff_ne.mpr (Ne.symm hc)]

theorem goJoin_ne_empty (xs : List String) (h : xs ≠ [])
    (hall : ∀ s ∈ xs, s ≠ "" ∧ ('/' : Char) ∉ s.data) :
    goJoin xs ≠ "" := by
  obtain ⟨c, r, hd, -⟩ := goJoin_ne_empty_head xs h hall
  intro he
  rw [he] at hd
  cases hd

/-- Path join as stated by the spec invariant: the manifest path is the
registry-relative path joined with the manifest filename, or exactly the
filename when that path is empty. -/
def pathJoin (a b : String) : String := if a = "" then b else a ++ "/" ++ b

/-- The manifest-path invariant of a descriptor (spec §3). -/
def hdInvariant (hd : hubDescriptor) : Prop :=
  hd.regSpecRepoPath = pathJoin hd.regRepoPath registryYAMLFile
  ∧ startsWithStr hd.regRepoPath "/" = false
  ∧ endsWithStr hd.regRepoPath "/" = false
  ∧ startsWithStr hd.regSpecRepoPath "/" = false
  ∧ endsWithStr hd.regSpecRepoPath "/" = false

theorem goJoin_invariant_parts (segs : List String)
    (hall : ∀ s ∈ segs, s ≠ "" ∧ ('/' : Char) ∉ s.data) :
    goJoin (segs ++ [registryYAMLFile]) = pathJoin (goJoin segs) registryYAMLFile
    ∧ startsWithStr (goJoin segs) "/" = false
    ∧ endsWithStr (goJoin segs) "/" = false
    ∧ startsWithStr (goJoin (segs ++ [registryYAMLFile])) "/" = false
    ∧ endsWithStr (goJoin (segs ++ [registryYAMLFile])) "/" = false := by
  have hyaml : registryYAMLFile ≠ "" ∧ ('/' : Char) ∉ registryYAMLFile.data := by decide
  have hall2 : ∀ s ∈ segs ++ [registryYAMLFile], s ≠ "" ∧ ('/' : Char) ∉ s.data := by
    intro s hs
    rcases List.mem_append.mp hs with h | h
    · exact hall s h
    · simp only [List.mem_singleton] at h
      subst h
      exact hyaml
  by_cases hne : segs = []
  · subst hne
    decide
  · have happ : segs ++ [registryYAMLFile] ≠ [] := by simp
    refine ⟨?_, goJoin_no_leading_slash segs hne hall, goJoin_no_trailing_slash segs hne hall,
      goJoin_no_leading_slash _ happ hall2, goJoin_no_trailing_slash _ happ hall2⟩
    rw [goJoin_append_single segs _ hne, pathJoin, if_neg (goJoin_ne_empty segs hne hall)]

theorem enterpriseTail_invariant (qRef : String) (baseURL : Option String) (org repo : String)
    (b : Nat) (components : List String) (hd : hubDescriptor)
    (h : enterpriseTail qRef baseURL org repo b components = .ok hd)
    (hns : ∀ s ∈ components, ('/' : Char) ∉ s.data)
    (hne : ∀ s ∈ (components.drop 1).dropLast, s ≠ "") :
    hdInvariant hd := by
  unfold enterpriseTail at h
  by_cases hlen : components.length > b + 4
  · rw [if_pos hlen] at h
    have hcomp_ne : components ≠ [] := by
      rw [← List.length_pos]
      omega
    have hinterior : ∀ s ∈ (components.drop (b + 4)).dropLast,
        s ≠ "" ∧ ('/' : Char) ∉ s.data := by
      intro s hs
      refine ⟨?_, hns s (List.mem_of_mem_drop (List.mem_of_mem_dropLast hs))⟩
      apply hne
      have h1 : (components.drop (b + 4)).dropLast
          = ((components.drop 1).dropLast).drop (b + 3) := by
        rw [dropLast_drop_comm components (b + 4), dropLast_drop_comm components 1,
          List.drop_drop]
        congr 1
        omega
      rw [h1] at hs
      exact List.mem_of_mem_drop hs
    by_cases hlast : components.getLastD "" = ""
    · rw [if_pos hlast] at h
      injection h with h1
      have hble : b + 4 ≤ components.dropLast.length := by
        rw [List.length_dropLast]
        omega
      have hrw : (components.dropLast ++ [registryYAMLFile]).drop (b + 4)
          = (components.drop (b + 4)).dropLast ++ [registryYAMLFile] := by
        rw [List.drop_append_of_le_length hble, dropLast_drop_comm]
      rw [hrw] at h1
      obtain ⟨hj, h2, h3, h4, h5⟩ :=
        goJoin_invariant_parts ((components.drop (b + 4)).dropLast) hinterior
      rw [← h1]
      exact ⟨hj, h2, h3, h4, h5⟩
    · rw [if_neg hlast] at h
      injection h with h1
      have hsegs_ne : components.drop (b + 4) ≠ [] := by
        rw [← List.length_pos, List.length_drop]
        omega
      have hgl : components.getLastD "" = components.getLast hcomp_ne := by
        rw [List.getLastD_eq_getLast?, List.getLast?_eq_getLast components hcomp_ne]
        rfl
      have hgood : ∀ s ∈ components.drop (b + 4), s ≠ "" ∧ ('/' : Char) ∉ s.data := by
        intro s hs
        refine ⟨?_, hns s (List.mem_of_mem_drop hs)⟩
        rcases mem_dropLast_or_getLast _ hsegs_ne s hs with hmem | hlaste
        · exact (hinterior s hmem).1
        · rw [hlaste, List.getLast_drop]
          intro hEmpty
          exact hlast (by rw [hgl]; exact hEmpty)
      have hrw : (components ++ [registryYAMLFile]).drop (b + 4)
          = components.drop (b + 4) ++ [registryYAMLFile] :=
        List.drop_append_of_le_length (by omega)
      rw [hrw] at h1
      obtain ⟨hj, h2, h3, h4, h5⟩ := goJoin_invariant_parts (components.drop (b + 4)) hgood
      rw [← h1]
      exact ⟨hj, h2, h3, h4, h5⟩
  · rw [if_neg hlen] at h
    injection h with h1
    rw [← h1]
    exact ⟨rfl, rfl, rfl, rfl, rfl⟩

/-- C9 (amended): for every descriptor successfully returned by
`parseGitHubURI` from a URI whose path has no empty interior segment
(i.e. no doubled slash; a single trailing slash is fine), the manifest
path equals the registry-relative path joined with the manifest filename
(exactly the filename when that path is empty) and neither field has a
leading or trailing slash. -/
theorem parse_manifest_invariant (uri : String) (hd : hubDescriptor)
    (hok : parseGitHubURI uri = .ok hd)
    (hclean : ∀ s ∈ ((splitOnChar '/' (urlParse (normalizedURI uri)).path).drop 1).dropLast,
        s ≠ "") :
    hdInvariant hd := by
  obtain ⟨u, b, qRef, hn, hent, hb, hq, hlen, htail⟩ := parse_ok_shape uri hd hok
  have hu : normalizedURI uri = u := by
    rw [normalizedURI, hn]
    rfl
  rw [hu] at hclean
  exact enterpriseTail_invariant _ _ _ _ _ _ _ htail
    (splitOnChar_no_sep '/' (urlParse u).path) hclean

/-- C9 counterexample: a URI whose path ends in a doubled slash is
accepted with an empty registry-relative path but a manifest path of
`/registry.yaml` — a leading slash, and not equal to the registry-relative
path joined with the manifest filename. -/
theorem parse_manifest_invariant_cex :
    parseGitHubURI "https://github.example.com/api/v3/repos/org/repo/contents//"
      = ParseResult.ok ⟨some "https://github.example.com/api/v3/", "org", "repo", "", "",
          "/registry.yaml"⟩
    ∧ startsWithStr "/registry.yaml" "/" = true
    ∧ ("/registry.yaml" : String) ≠ pathJoin "" registryYAMLFile := ⟨rfl, rfl, by decide⟩

/-- C9 witness: the invariant theorem applied to a concrete accepted
enterprise URI with a clean path. -/
theorem parse_manifest_invariant_witness :
    hdInvariant ⟨some "https://github.example.com/api/v3/", "org", "repo", "", "reg",
      "reg/registry.yaml"⟩ :=
  parse_manifest_invariant "https://github.example.com/api/v3/repos/org/repo/contents/reg"
    _ rfl (by decide)
